import Mathlib

/-!
Verification of the JojoDiff binary differencing engine (v0.8.4/0.8.5 sources).

Shallow embedding: the pure decision logic of the C++ classes is transcribed
into executable Lean definitions; machine integers (`off_t`, `int`, the
unsigned `hkey` hash word) are modelled as `Int`/`Nat` with explicit modular
reduction where the C type wraps.  Stateful objects become explicit state
records.  The buffered file readers are abstracted, where a function needs
them, as position-indexed byte oracles (`Int → Int`), negative values being
the `EOF`/`EOB` sentinels of `JDefs.h`.  The build modelled is the
`JDIFF_LARGEFILE` build (64-bit `hkey`, hence `SMPSZE = 64`, and the
eight-byte branch of `JPatcht::ufGetInt` enabled).
-/

namespace JojoDiff

/-- `EOF` sentinel from stdio, used throughout `JDefs.h`. -/
def EOF : Int := -1

/-- `EOB = EOF - 1` from `JDefs.h`. -/
def EOB : Int := -2

/-- `SMPSZE = sizeof(hkey) * 8` from `JDefs.h` (64-bit hash keys). -/
def SMPSZE : Nat := 64

/-- Modulus of the unsigned `hkey` hash word (64-bit build). -/
def hkeyMod : Nat := 2 ^ 64

/-! ## Exit codes (`JDefs.h`) -/

def EXI_OK : Int := 0
def EXI_DIF : Int := 1
def EXI_EQL : Int := 2
def EXI_ARG : Int := -2
def EXI_FRT : Int := -3
def EXI_SCD : Int := -4
def EXI_OUT : Int := -5
def EXI_SEK : Int := -6
def EXI_LRG : Int := -7
def EXI_RED : Int := -8
def EXI_WRI : Int := -9
def EXI_MEM : Int := -10
def EXI_ERR : Int := -20

/-! ## `JDiff::hash` (JDiff.cpp)

The rolling hash update.  The C signature is
`hkey hash(hkey akCurHsh, int &acOld, int acNew, int &aiEql)`; the two
reference parameters are returned alongside the new hash value as a triple
`(hash, acOld, aiEql)`.  The new byte `acNew` is a byte value (`Nat`), the
previous byte `acOld` is an `Int` because it is initialised with the `EOF`
sentinel. -/

def hash (akCurHsh : Nat) (acOld : Int) (acNew : Nat) (aiEql : Nat) :
    Nat × Int × Nat :=
  if acOld = (acNew : Int) then
    let e := if aiEql < SMPSZE then aiEql + 1 else aiEql
    ((akCurHsh * 2 + acNew + e) % hkeyMod, acOld, e)
  else
    ((akCurHsh * 2 + acNew + 0) % hkeyMod, (acNew : Int), 0)

/-- Iterated rolling hash over a byte stream, as the differencing driver
threads it (incremental scan, lookahead scan and full prescan all start from
`h = 0`, `acOld = EOF`, `aiEql = 0`). -/
def hashFold : Nat × Int × Nat → List Nat → Nat × Int × Nat
  | s, [] => s
  | (h, p, e), c :: cs => hashFold (hash h p c e) cs

/-! ## `JHashPos` (JHashPos.cpp) -/

def COLLISION_THRESHOLD : Int := 4
def COLLISION_HIGH : Int := 4
def COLLISION_LOW : Int := 1

/-- Mutable state of a `JHashPos` hash table of `prime` slots
(`miHshPme`).  The two parallel arrays `mkHshTblHsh`/`mzHshTblPos` are
modelled as total functions on slot numbers. -/
structure HpState where
  prime : Nat
  colMax : Int
  colCnt : Int
  rlb : Int
  lodCnt : Int
  tblHsh : Nat → Nat
  tblPos : Nat → Int

/-- Quality-dependent decrement of the collision counter in
`JHashPos::add`: `COLLISION_HIGH` for samples with `aiEqlCnt <= SMPSZE * 2`,
`COLLISION_LOW` otherwise. -/
def colDec (aiEqlCnt : Int) : Int :=
  if aiEqlCnt ≤ (SMPSZE : Int) * 2 then COLLISION_HIGH else COLLISION_LOW

/-- `JHashPos::add(akCurHsh, azPos, aiEqlCnt)`. -/
def hpAdd (st : HpState) (akCurHsh : Nat) (azPos : Int) (aiEqlCnt : Int) :
    HpState :=
  let st1 :=
    if st.lodCnt > 0 then { st with lodCnt := st.lodCnt - 1 }
    else { st with lodCnt := (st.prime : Int),
                   colMax := st.colMax + COLLISION_THRESHOLD,
                   rlb := st.rlb + 4 }
  let st2 := { st1 with colCnt := st1.colCnt - colDec aiEqlCnt }
  if st2.colCnt ≤ 0 then
    let liIdx := akCurHsh % st.prime
    { st2 with
      tblHsh := fun i => if i = liIdx then akCurHsh else st2.tblHsh i,
      tblPos := fun i => if i = liIdx then azPos else st2.tblPos i,
      colCnt := st2.colMax }
  else st2

/-- `JHashPos::reset()`: counters are re-initialised, the table arrays are
not touched. -/
def hpReset (st : HpState) : HpState :=
  { st with lodCnt := (st.prime : Int),
            colMax := COLLISION_THRESHOLD,
            colCnt := COLLISION_THRESHOLD,
            rlb := (SMPSZE : Int) + (SMPSZE : Int) / 2 }

/-- `JHashPos::get(akCurHsh, azPos)`: `some pos` on a full-hash slot match,
`none` otherwise. -/
def hpGet (st : HpState) (akCurHsh : Nat) : Option Int :=
  let liIdx := akCurHsh % st.prime
  if st.tblHsh liIdx = akCurHsh then some (st.tblPos liIdx) else none

/-- State of a freshly constructed `JHashPos` with `prime` slots.  The
constructor `malloc`s the arrays without initialising them, so the initial
table contents are an arbitrary parameter. -/
def hpInit (prime : Nat) (tblHsh : Nat → Nat) (tblPos : Nat → Int) : HpState :=
  { prime := prime
    colMax := COLLISION_THRESHOLD
    colCnt := COLLISION_THRESHOLD
    rlb := (SMPSZE : Int) + (SMPSZE : Int) / 2
    lodCnt := (prime : Int)
    tblHsh := tblHsh
    tblPos := tblPos }

/-- Fold a sequence of `add` calls over a `JHashPos` state. -/
def hpAddFold (st : HpState) : List (Nat × Int × Int) → HpState
  | [] => st
  | (h, pos, eq) :: rest => hpAddFold (hpAdd st h pos eq) rest

/-! ## `JDiff::search`, offset translation (JDiff.cpp lines 688-717)

Once `getbest` has elected a match `(lzFndOrg, lzFndNew)`, `search`
translates it into `(azSkpOrg, azSkpNew, azAhd)` and returns 1.  The
translation is a pure function of the read positions `(azRedOrg, azRedNew)`,
the match and the backtrack base `lzBseOrg`; the result quadruple is
`(azSkpOrg, azSkpNew, azAhd, return code)`. -/

def searchOffsets (azRedOrg azRedNew lzFndOrg lzFndNew lzBseOrg : Int) :
    Int × Int × Int × Int :=
  if lzFndOrg ≥ azRedOrg then
    if lzFndOrg - azRedOrg ≥ lzFndNew - azRedNew then
      (lzFndOrg - azRedOrg + azRedNew - lzFndNew, 0, lzFndNew - azRedNew, 1)
    else
      (0, lzFndNew - azRedNew + azRedOrg - lzFndOrg, lzFndOrg - azRedOrg, 1)
  else
    let azSkpOrg := azRedOrg - lzFndOrg + lzFndNew - azRedNew
    if azSkpOrg ≤ azRedOrg - lzBseOrg then
      (- azSkpOrg, 0, lzFndNew - azRedNew, 1)
    else
      let azSkpNew := azSkpOrg - (azRedOrg - lzBseOrg)
      (lzBseOrg - azRedOrg, azSkpNew, (lzFndNew - azRedNew) - azSkpNew, 1)

/-! ## `JFileAhead::get_fromfile` (JFileAhead.cpp)

The mode/window dispatch of the buffered reader.  The relevant state fields
are `mzPosInp` (end of buffered data), `miBufUsd` (bytes buffered),
`mlBufSze` (window size `W`), `miBlkSze` (block size `B`), `mzPosBse`
(lookahead base) and `mbSeq` (sequential stream flag).  The I/O outcomes of
the seek and read system calls are supplied as oracle booleans. -/

inductive eAhead where
  | Read
  | HardAhead
  | SoftAhead
deriving DecidableEq

/-- Result codes of `get_fromfile` (`eBufDne`). -/
inductive eBufDne where
  | EndOfBuffer
  | EndOfFile
  | SeekError
  | ReadError
  | Added
deriving DecidableEq

structure FaState where
  posInp : Int
  bufUsd : Int
  bufSze : Int
  blkSze : Int
  posBse : Int
  seq : Bool

/-- `JFileAhead::get_fromfile(azPos, aiSft)`.  `seekOk1`/`seekOk2` model the
success of the `jseek` calls and `readEof` models `readblocks` hitting the
end of the file. -/
def get_fromfile (st : FaState) (azPos : Int) (aiSft : eAhead)
    (seekOk1 seekOk2 readEof : Bool) : eBufDne :=
  if azPos < st.posInp - st.bufUsd then
    if aiSft = eAhead.SoftAhead then .EndOfBuffer
    else if st.seq then
      (if aiSft = eAhead.HardAhead then .EndOfBuffer else .SeekError)
    else if azPos + st.bufSze - st.blkSze > st.posInp - st.bufUsd then
      -- Scrollback
      if ¬ seekOk1 then .SeekError
      else if readEof then .ReadError
      else if ¬ seekOk2 then .SeekError
      else .Added
    else
      -- Reset
      if ¬ seekOk1 then .SeekError
      else if readEof then .EndOfFile
      else .Added
  else if azPos ≥ st.posInp + st.bufSze then
    if aiSft = eAhead.SoftAhead then .EndOfBuffer
    else
      -- Reset
      if ¬ seekOk1 then .SeekError
      else if readEof then .EndOfFile
      else .Added
  else
    if aiSft = eAhead.SoftAhead ∧ azPos > st.posBse + st.bufSze - st.blkSze then
      .EndOfBuffer
    else
      -- Append
      if readEof then .EndOfFile else .Added

/-! ## `JPatcht::ufGetInt` (JPatcht.cpp)

The variable-width length decoder of the patch applier.  The patch stream is
modelled as a list of byte values; `pget` is `apFil.get()`, returning `EOF`
when the stream is exhausted.  The `JDIFF_LARGEFILE` build is modelled, so
the first byte 255 is followed by an eight-byte big-endian value. -/

def pget : List Nat → Int × List Nat
  | [] => (EOF, [])
  | b :: bs => ((b : Int), bs)

def ufGetInt (l : List Nat) : Int × List Nat :=
  let (liVal, l1) := pget l
  if liVal < 252 then (liVal + 1, l1)
  else if liVal = 252 then
    let (b1, l2) := pget l1
    (253 + b1, l2)
  else if liVal = 253 then
    let (b1, l2) := pget l1
    let (b2, l3) := pget l2
    (b1 * 256 + b2, l3)
  else if liVal = 254 then
    let (b1, l2) := pget l1
    let (b2, l3) := pget l2
    let (b3, l4) := pget l3
    let (b4, l5) := pget l4
    (((b1 * 256 + b2) * 256 + b3) * 256 + b4, l5)
  else
    let (b1, l2) := pget l1
    let (b2, l3) := pget l2
    let (b3, l4) := pget l3
    let (b4, l5) := pget l4
    let (b5, l6) := pget l5
    let (b6, l7) := pget l6
    let (b7, l8) := pget l7
    let (b8, l9) := pget l8
    (((((((b1 * 256 + b2) * 256 + b3) * 256 + b4) * 256 + b5) * 256 + b6)
        * 256 + b7) * 256 + b8, l9)

/-! ## `main` (main.cpp): result mapping and exit switch -/

/-- Lines 840-845 of main.cpp: after `jdiff()` returns `EXI_OK`, the result
is refined into `EXI_DIF` (data bytes were emitted, i.e. differences found)
or `EXI_EQL` (no data bytes, i.e. no differences). -/
def jdiffResultMap (liRet : Int) (gzOutBytDta : Int) : Int :=
  if liRet = EXI_OK then
    (if gzOutBytDta > 0 then EXI_DIF else EXI_EQL)
  else liRet

/-- The final `switch (liRet)` of `main` (lines 897-932): the value passed
to `exit()`. -/
def exitSwitch (liRet : Int) : Int :=
  if liRet = EXI_SEK then - EXI_SEK
  else if liRet = EXI_LRG then - EXI_LRG
  else if liRet = EXI_RED then - EXI_RED
  else if liRet = EXI_WRI then - EXI_WRI
  else if liRet = EXI_MEM then - EXI_MEM
  else if liRet = EXI_ARG then - EXI_ARG
  else if liRet = EXI_ERR then - EXI_ERR
  else if liRet = EXI_OK then EXI_OK
  else if liRet = EXI_EQL then EXI_OK
  else if liRet = EXI_DIF then EXI_DIF
  else - EXI_ERR

/-! ## `JMatchTable` constants (JMatchTable.cpp) -/

def EQLSZE : Nat := 8
def EQLMIN : Nat := 4
def EQLMAX : Nat := 256
def CMPINV : Int := -1
def CMPSKP : Int := -2
def CMPEOB : Int := -3
def MAXDST : Int := 2 * 1024 * 1024
def MINDST : Int := 1024

/-! ## `JMatchTable::check` (JMatchTable.cpp)

The two buffered readers are abstracted as position-indexed oracles
`fOrg fNew : Int → Int` returning the byte at a position or a negative
sentinel (`EOF`, `EOB`, an error code); the read mode `aiSft` is fixed for
one invocation in the C code and is absorbed into the oracles.  The local
loop state `(azPosOrg, azPosNew, aiLen, liEql, lcOrg, lcNew)` is threaded
explicitly; the loop result carries the in/out positions, the equal-byte
counter and the last byte read from each file. -/

structure ChkRes where
  posOrg : Int
  posNew : Int
  liEql : Nat
  lcOrg : Int
  lcNew : Int

/-- The compare loop of `JMatchTable::check` (the `for (; liEql < EQLMAX;
aiLen--)` loop).  `lcOrg`/`lcNew` start as 0 like the C locals. -/
def checkLoop (fOrg fNew : Int → Int) (aiGld : Int) (azPosOrg azPosNew : Int)
    (aiLen : Int) (liEql : Nat) (lcOrg lcNew : Int) : ChkRes :=
  if h : liEql < EQLMAX then
    let co := fOrg azPosOrg
    if co < 0 then ⟨azPosOrg, azPosNew, liEql, co, lcNew⟩
    else
      let cn := fNew azPosNew
      if cn < 0 then ⟨azPosOrg, azPosNew, liEql, co, cn⟩
      else if co = cn then
        checkLoop fOrg fNew aiGld (azPosOrg + 1) (azPosNew + 1) (aiLen - 1)
          (liEql + 1) co cn
      else if EQLSZE ≤ liEql then ⟨azPosOrg, azPosNew, liEql, co, cn⟩
      else if hlen : aiLen ≤ 0 then ⟨azPosOrg, azPosNew, liEql, co, cn⟩
      else
        checkLoop fOrg fNew aiGld
          (if aiGld ≠ 0 then azPosOrg - liEql else azPosOrg + 1)
          (azPosNew + 1) (aiLen - 1) 0 co cn
  else ⟨azPosOrg, azPosNew, liEql, lcOrg, lcNew⟩
termination_by aiLen.toNat * (EQLMAX + 1) + (EQLMAX - liEql)
decreasing_by
  · simp only [EQLMAX] at *; omega
  · simp only [EQLMAX] at *; omega

/-- `JMatchTable::check(azPosOrg, azPosNew, aiLen, aiGld, aiSft)`: the
return value together with the final in/out positions. -/
def check (fOrg fNew : Int → Int) (azPosOrg azPosNew : Int) (aiLen : Int)
    (aiGld : Int) : Int × Int × Int :=
  let r := checkLoop fOrg fNew aiGld azPosOrg azPosNew aiLen 0 0 0
  if EQLMIN < r.liEql then
    ((r.liEql : Int), r.posOrg - r.liEql, r.posNew - r.liEql)
  else if r.lcOrg = EOB ∨ r.lcNew = EOB then (CMPEOB, r.posOrg, r.posNew)
  else (0, r.posOrg, r.posNew)

/-- The `liEql` bytes just before the loop positions form a confirmed equal
run that was actually read (all bytes non-negative). -/
def RunOk (fOrg fNew : Int → Int) (r : ChkRes) : Prop :=
  ∀ i : Nat, i < r.liEql →
    fOrg (r.posOrg - r.liEql + i) = fNew (r.posNew - r.liEql + i) ∧
    0 ≤ fOrg (r.posOrg - r.liEql + i)

/-! ## `JMatchTable` aging lists (JMatchTable.cpp, JMatchTable.h)

The match-record pool and its two intrusive aging lists (`mpNew`/`mpLst`
and `mpOld`), together with the free counter `miMchFre`, modelled with Lean
lists.  Records carry the `rMch` fields plus a pool identity `id` standing
for the record's address (used for the `lpCur != mpBst` tests).  The
outcomes of the byte-compare evaluation `isGoodOrBest` depend on file
contents; they are supplied by an oracle `ev` mapping the evaluated record
to its updated fields and the returned verdict.  The colliding/gliding hash
chains only determine which record a hit merges into, never list
membership, so a merge target is identified by its position in a list. -/

structure MRec where
  id : Nat
  iiCnt : Int
  iiGld : Int
  izBeg : Int
  izNew : Int
  izOrg : Int
  izDlt : Int
  izTst : Int
  iiCmp : Int
deriving DecidableEq

structure MtState where
  fre : Nat
  old : List MRec
  new : List MRec
  bstId : Option Nat
  mzOld : Int
deriving DecidableEq

inductive eMatchReturn where
  | Error
  | Full
  | Enlarged
  | Invalid
  | Good
  | Best
  | Valid
deriving DecidableEq

/-- `JMatchTable::isOld2Skip(lpCur, azRedNew)`. -/
def isOld2Skip (r : MRec) (azRedNew : Int) : Bool :=
  if r.iiCmp = CMPSKP then true
  else if r.iiCmp = CMPINV ∨ r.iiCmp = 0 then
    decide (r.izNew + MAXDST ≤ azRedNew)
  else
    decide (r.izNew + MAXDST ≤ azRedNew ∧ r.izTst + |r.iiCmp| < azRedNew)

/-- `JMatchTable::isOld2Reuse(lpCur, azRedNew)`; `bstId` is the identity of
`mpBst` and `mzOld` the old-limit. -/
def isOld2Reuse (r : MRec) (bstId : Option Nat) (mzOld : Int) : Bool :=
  if r.iiCmp = CMPSKP then true
  else if r.iiCmp = CMPINV then true
  else if r.iiCmp = CMPEOB then decide (bstId ≠ some r.id ∧ r.izNew < mzOld)
  else if r.iiCmp = 0 then decide (r.izNew < r.izTst ∨ r.izNew < mzOld)
  else
    decide (bstId ≠ some r.id ∧ r.izNew < mzOld ∧ r.izTst + |r.iiCmp| < mzOld)

/-- Colliding merge in `add`: `iiCnt++`, `izNew := azFndNewAdd`. -/
def collMerge (r : MRec) (azFndNewAdd : Int) : MRec :=
  { r with iiCnt := r.iiCnt + 1, izNew := azFndNewAdd }

/-- Gliding merge in `add`: as `collMerge` plus the first-time setting of
the gliding recurrence `iiGld`. -/
def gldMerge (r : MRec) (azFndNewAdd : Int) : MRec :=
  let r1 := { r with iiCnt := r.iiCnt + 1, izNew := azFndNewAdd }
  if r.iiGld = 0 then
    { r1 with iiGld := if azFndNewAdd ≤ r.izBeg + (SMPSZE : Int) then
        azFndNewAdd - r.izBeg else (SMPSZE : Int) }
  else r1

/-- Skip-marked records are reactivated (`iiCmp := 0`) and re-evaluated by
`isGoodOrBest` when refreshed; other refreshed records (`iiCnt ≥ 2`) are
not re-evaluated. -/
def refreshEval (ev : MRec → MRec × eMatchReturn) (r : MRec) : MRec :=
  if r.iiCmp = CMPSKP then (ev { r with iiCmp := 0 }).1 else r

/-- The merge applied to a refreshed record (colliding or gliding),
followed by the conditional re-evaluation. -/
def refreshRec (ev : MRec → MRec × eMatchReturn) (glide : Bool)
    (azFndNewAdd : Int) (r : MRec) : MRec :=
  refreshEval ev (if glide then gldMerge r azFndNewAdd else collMerge r azFndNewAdd)

/-- Field initialisation of a freshly allocated or reused record
(`fill out the form` in `add`). -/
def initRec (idNew : Nat) (azFndOrgAdd azFndNewAdd : Int) : MRec :=
  { id := idNew, iiCnt := 1, iiGld := 0, izBeg := azFndNewAdd,
    izNew := azFndNewAdd, izOrg := azFndOrgAdd,
    izDlt := azFndOrgAdd - azFndNewAdd, izTst := -1, iiCmp := 0 }

/-- Evaluation and list placement of a record with `iiCnt == 1` in `add`:
an `Invalid` verdict with `izTst >= izNew` marks the record `CMPINV` and
pushes it at the front of the new list; every other verdict appends it to
the new list (`addNew`). -/
def insertEval (ev : MRec → MRec × eMatchReturn) (r0 : MRec)
    (nw : List MRec) : List MRec :=
  let r1 := (ev r0).1
  if (ev r0).2 = eMatchReturn.Invalid ∧ r1.izNew ≤ r1.izTst then
    { r1 with iiCmp := CMPINV } :: nw
  else nw ++ [r1]

/-- First phase of `nextold`: walk the old list, moving non-reusable heads
to the tail of the new list, stopping at the first reusable head. -/
def nextoldWalk (reuse : MRec → Bool) : List MRec → List MRec →
    List MRec × List MRec
  | [], nw => ([], nw)
  | r :: rest, nw =>
    if reuse r then (r :: rest, nw)
    else nextoldWalk reuse rest (nw ++ [r])

/-- Second phase of `nextold`: when the old list is empty, pull `CMPINV`
records off the front of the new list; an enlarged invalid (`iiCnt > 1` and
`izNew > izTst`) is reactivated and appended back to the new list, any
other invalid is moved to the old list and the walk stops. -/
def nextoldPull : List MRec → List MRec → List MRec × List MRec
  | [], acc => (acc, [])
  | r :: rest, acc =>
    if r.iiCmp = CMPINV then
      if 1 < r.iiCnt ∧ r.izTst < r.izNew then
        nextoldPull rest (acc ++ [{ r with iiCmp := 0 }])
      else (rest ++ acc, [r])
    else (r :: rest ++ acc, [])

/-- `JMatchTable::nextold(azRedNew)` on the pair of aging lists; returns
`(old, new)`. -/
def nextold (bstId : Option Nat) (mzOld : Int) (old nw : List MRec) :
    List MRec × List MRec :=
  let p := nextoldWalk (fun r => isOld2Reuse r bstId mzOld) old nw
  if p.1 = [] ∧ p.2 ≠ [] then
    let q := nextoldPull p.2 []
    (q.2, q.1)
  else p

/-- State of a freshly constructed `JMatchTable` with `N` pool slots:
all slots free, both aging lists empty. -/
def mtInit (N : Nat) : MtState :=
  { fre := N, old := [], new := [], bstId := none, mzOld := 0 }

/-- The accounting quantity of the claim: free slots plus the two aging
lists. -/
def mtCount (s : MtState) : Nat := s.fre + s.old.length + s.new.length

/-- One complete `add`, `cleanup` or `getbest` call, by code path.  `ev` is
the `isGoodOrBest` outcome oracle; best-pointer and old-limit updates are
existential (constructor arguments), since they never move records between
the free pool and the lists. -/
inductive MtStep (ev : MRec → MRec × eMatchReturn) : MtState → MtState → Prop where
  | cleanup (s : MtState) (azRedNew : Int) (bst1 : Option Nat) (mzOld1 : Int) :
      MtStep ev s
        { fre := s.fre,
          old := (nextold bst1 mzOld1
            ((s.new ++ s.old).map fun r =>
              if isOld2Skip r azRedNew then { r with iiCmp := CMPSKP }
              else (ev r).1) []).1,
          new := (nextold bst1 mzOld1
            ((s.new ++ s.old).map fun r =>
              if isOld2Skip r azRedNew then { r with iiCmp := CMPSKP }
              else (ev r).1) []).2,
          bstId := bst1, mzOld := mzOld1 }
  | addRefreshOldHead (s : MtState) (glide : Bool) (azFndNewAdd : Int)
      (r : MRec) (rest : List MRec) (hold : s.old = r :: rest) :
      MtStep ev s
        { s with
          old := (nextold s.bstId s.mzOld rest s.new).1,
          new := (nextold s.bstId s.mzOld rest s.new).2 ++
            [refreshRec ev glide azFndNewAdd r] }
  | addRefreshInOld (s : MtState) (glide : Bool) (azFndNewAdd : Int) (i : Nat) :
      MtStep ev s
        { s with old := s.old.modify (refreshRec ev glide azFndNewAdd) i }
  | addRefreshInNew (s : MtState) (glide : Bool) (azFndNewAdd : Int) (i : Nat) :
      MtStep ev s
        { s with new := s.new.modify (refreshRec ev glide azFndNewAdd) i }
  | addAllocFree (s : MtState) (idNew : Nat) (azFndOrgAdd azFndNewAdd : Int)
      (hfre : 0 < s.fre) :
      MtStep ev s
        { s with
          fre := s.fre - 1,
          new := insertEval ev (initRec idNew azFndOrgAdd azFndNewAdd) s.new }
  | addReuseOld (s : MtState) (azFndOrgAdd azFndNewAdd : Int) (r : MRec)
      (rest : List MRec) (hfre : s.fre = 0) (hold : s.old = r :: rest) :
      MtStep ev s
        { s with
          old := (nextold s.bstId s.mzOld rest s.new).1,
          new := insertEval ev (initRec r.id azFndOrgAdd azFndNewAdd)
            (nextold s.bstId s.mzOld rest s.new).2 }
  | addFull (s : MtState) (hfre : s.fre = 0) (hold : s.old = []) :
      MtStep ev s s
  | getbestJoin (s : MtState) (bst1 : Option Nat) (mzOld1 : Int) :
      MtStep ev s
        { s with
          old := s.new ++ s.old, new := [], bstId := bst1, mzOld := mzOld1 }

/-! ## Helper lemmas -/

/-- The equal-tail counter produced by one `hash` step stays within
`[0, SMPSZE]`. -/
theorem hash_eql_le (h : Nat) (p : Int) (c : Nat) (e : Nat) (he : e ≤ SMPSZE) :
    (hash h p c e).2.2 ≤ SMPSZE := by
  unfold hash
  by_cases hp : p = (c : Int) <;> simp [hp] <;> split_ifs <;> omega

/-- The equal-tail counter stays within `[0, SMPSZE]` along any hash
trajectory. -/
theorem hashFold_eql_le (cs : List Nat) :
    ∀ s : Nat × Int × Nat, s.2.2 ≤ SMPSZE → (hashFold s cs).2.2 ≤ SMPSZE := by
  induction cs with
  | nil => intro s hs; exact hs
  | cons c cs ih =>
      intro s hs
      obtain ⟨h, p, e⟩ := s
      exact ih _ (hash_eql_le h p c e hs)

/-- A sample quality within `[0, SMPSZE]` always takes the high-quality
branch of the collision decrement. -/
theorem colDec_high (e : Nat) (he : e ≤ SMPSZE) :
    colDec (e : Int) = COLLISION_HIGH := by
  unfold colDec
  rw [if_pos]
  have h1 : (e : Int) ≤ (SMPSZE : Int) := by exact_mod_cast he
  have h2 : (0 : Int) ≤ (SMPSZE : Int) := Int.ofNat_nonneg _
  linarith

/-- One `add` never decreases `colMax` nor `rlb`. -/
theorem hpAdd_colMax_rlb (st : HpState) (h : Nat) (pos : Int) (eq : Int) :
    st.colMax ≤ (hpAdd st h pos eq).colMax ∧ st.rlb ≤ (hpAdd st h pos eq).rlb := by
  unfold hpAdd COLLISION_THRESHOLD
  by_cases h1 : st.lodCnt > 0 <;> simp only [h1, if_pos, if_neg, ite_true,
    ite_false] <;> split_ifs <;> constructor <;> simp <;> omega

/-- `colMax` and `rlb` are non-decreasing across any sequence of adds. -/
theorem hpAddFold_mono (ops : List (Nat × Int × Int)) :
    ∀ st : HpState, st.colMax ≤ (hpAddFold st ops).colMax ∧
      st.rlb ≤ (hpAddFold st ops).rlb := by
  induction ops with
  | nil => intro st; exact ⟨le_refl _, le_refl _⟩
  | cons op rest ih =>
      intro st
      obtain ⟨h, pos, eq⟩ := op
      have h1 := hpAdd_colMax_rlb st h pos eq
      have h2 := ih (hpAdd st h pos eq)
      exact ⟨le_trans h1.1 h2.1, le_trans h1.2 h2.2⟩

/-- Extending a confirmed equal run by one freshly matched byte. -/
theorem RunOk_extend (fOrg fNew : Int → Int) (po pn : Int) (liEql : Nat)
    (a b c d : Int) (h : RunOk fOrg fNew ⟨po, pn, liEql, a, b⟩)
    (heq : fOrg po = fNew pn) (hge : 0 ≤ fOrg po) :
    RunOk fOrg fNew ⟨po + 1, pn + 1, liEql + 1, c, d⟩ := by
  intro i hi
  simp only at hi ⊢
  rcases Nat.lt_or_ge i liEql with h1 | h1
  · have h2 := h i h1
    simp only at h2
    have e1 : po + 1 - ((liEql : Nat) + 1 : Int) + i = po - (liEql : Int) + i := by
      push_cast; ring
    rw [show ((liEql + 1 : Nat) : Int) = ((liEql : Int) + 1) by push_cast; ring]
    rw [show po + 1 - ((liEql : Int) + 1) + i = po - (liEql : Int) + i by ring,
        show pn + 1 - ((liEql : Int) + 1) + i = pn - (liEql : Int) + i by ring]
    exact h2
  · have h2 : i = liEql := by omega
    subst h2
    rw [show ((i + 1 : Nat) : Int) = ((i : Int) + 1) by push_cast; ring]
    rw [show po + 1 - ((i : Int) + 1) + i = po by ring,
        show pn + 1 - ((i : Int) + 1) + i = pn by ring]
    exact ⟨heq, hge⟩

/-- Loop invariant of `checkLoop`: starting from a confirmed run of
`liEql ≤ EQLMAX` bytes, the loop result again carries a confirmed equal run
of `liEql ≤ EQLMAX` bytes ending at its positions. -/
theorem checkLoop_run (fOrg fNew : Int → Int) (aiGld : Int) :
    ∀ (po pn len : Int) (liEql : Nat) (lcOrg lcNew : Int),
      liEql ≤ EQLMAX →
      RunOk fOrg fNew ⟨po, pn, liEql, lcOrg, lcNew⟩ →
      RunOk fOrg fNew (checkLoop fOrg fNew aiGld po pn len liEql lcOrg lcNew) ∧
      (checkLoop fOrg fNew aiGld po pn len liEql lcOrg lcNew).liEql ≤ EQLMAX := by
  intro po pn len liEql lcOrg lcNew
  induction po, pn, len, liEql, lcOrg, lcNew using checkLoop.induct fOrg fNew aiGld with
  | case1 po pn len liEql lcOrg lcNew h co hco =>
      intro hle hrun
      rw [checkLoop.eq_def]
      simp only [dif_pos h, if_pos hco]
      exact ⟨hrun, hle⟩
  | case2 po pn len liEql lcOrg lcNew h co hco cn hcn =>
      intro hle hrun
      rw [checkLoop.eq_def]
      simp only [dif_pos h, if_neg hco, if_pos hcn]
      exact ⟨hrun, hle⟩
  | case3 po pn len liEql lcOrg lcNew h co hco cn hcn hecn ih =>
      intro hle hrun
      rw [checkLoop.eq_def]
      simp only [dif_pos h, if_neg hco, if_neg hcn, if_pos hecn]
      refine ih ?_ ?_
      · omega
      · refine RunOk_extend fOrg fNew po pn liEql lcOrg lcNew _ _ hrun ?_ ?_
        · show fOrg po = fNew pn
          exact hecn
        · omega
  | case4 po pn len liEql lcOrg lcNew h co hco cn hcn hecn hsz =>
      intro hle hrun
      rw [checkLoop.eq_def]
      simp only [dif_pos h, if_neg hco, if_neg hcn, if_neg hecn, if_pos hsz]
      exact ⟨hrun, hle⟩
  | case5 po pn len liEql lcOrg lcNew h co hco cn hcn hecn hsz hlen =>
      intro hle hrun
      rw [checkLoop.eq_def]
      simp only [dif_pos h, if_neg hco, if_neg hcn, if_neg hecn, if_neg hsz,
        dif_pos hlen]
      exact ⟨hrun, hle⟩
  | case6 po pn len liEql lcOrg lcNew h co hco cn hcn hecn hsz hlen ih =>
      intro hle hrun
      rw [checkLoop.eq_def]
      simp only [dif_pos h, if_neg hco, if_neg hcn, if_neg hecn, if_neg hsz,
        dif_neg hlen]
      refine ih ?_ ?_
      · simp [EQLMAX]
      · intro i hi
        simp only at hi
        omega
  | case7 po pn len liEql lcOrg lcNew h =>
      intro hle hrun
      rw [checkLoop.eq_def]
      simp only [dif_neg h]
      exact ⟨hrun, hle⟩

/-- The empty run satisfies the invariant. -/
theorem RunOk_zero (fOrg fNew : Int → Int) (po pn a b : Int) :
    RunOk fOrg fNew ⟨po, pn, 0, a, b⟩ := by
  intro i hi
  simp only at hi
  omega

/-! ## Claim theorems -/

/-- Claim C1: `check(org, new, len, gliding, mode)` returns either 0,
`CMPEOB`, or a value `k` with `EQLMIN + 1 ≤ k ≤ EQLMAX` — never a value in
`1..EQLMIN`; when it returns `k ≥ EQLMIN + 1`, a run of `k` equal bytes was
actually read and matched, and the in/out positions are rewound to the
start of that equal run (`src[org'..org'+k] == dst[new'..new'+k]`); and it
returns `CMPEOB` exactly when a reader returned `EOB` at the point the loop
stopped without success. -/
theorem C1_matchtable_check (fOrg fNew : Int → Int) (aiGld : Int)
    (azPosOrg azPosNew aiLen : Int) :
    ((check fOrg fNew azPosOrg azPosNew aiLen aiGld).1 = 0 ∨
     (check fOrg fNew azPosOrg azPosNew aiLen aiGld).1 = CMPEOB ∨
     ((EQLMIN : Int) + 1 ≤ (check fOrg fNew azPosOrg azPosNew aiLen aiGld).1 ∧
      (check fOrg fNew azPosOrg azPosNew aiLen aiGld).1 ≤ (EQLMAX : Int))) ∧
    ((EQLMIN : Int) + 1 ≤ (check fOrg fNew azPosOrg azPosNew aiLen aiGld).1 →
      ∀ i : Nat, (i : Int) < (check fOrg fNew azPosOrg azPosNew aiLen aiGld).1 →
        fOrg ((check fOrg fNew azPosOrg azPosNew aiLen aiGld).2.1 + i) =
          fNew ((check fOrg fNew azPosOrg azPosNew aiLen aiGld).2.2 + i) ∧
        0 ≤ fOrg ((check fOrg fNew azPosOrg azPosNew aiLen aiGld).2.1 + i)) ∧
    ((check fOrg fNew azPosOrg azPosNew aiLen aiGld).1 = CMPEOB ↔
      ((checkLoop fOrg fNew aiGld azPosOrg azPosNew aiLen 0 0 0).liEql ≤ EQLMIN ∧
       ((checkLoop fOrg fNew aiGld azPosOrg azPosNew aiLen 0 0 0).lcOrg = EOB ∨
        (checkLoop fOrg fNew aiGld azPosOrg azPosNew aiLen 0 0 0).lcNew = EOB))) := by
  have hrun := checkLoop_run fOrg fNew aiGld azPosOrg azPosNew aiLen 0 0 0
    (Nat.zero_le _) (RunOk_zero fOrg fNew azPosOrg azPosNew 0 0)
  simp only [check]
  set r := checkLoop fOrg fNew aiGld azPosOrg azPosNew aiLen 0 0 0 with hrdef
  by_cases h1 : EQLMIN < r.liEql
  · simp only [if_pos h1]
    refine ⟨Or.inr (Or.inr ⟨by exact_mod_cast h1, by exact_mod_cast hrun.2⟩),
      ?_, ?_⟩
    · intro _ i hi
      have hi2 : i < r.liEql := by exact_mod_cast hi
      exact hrun.1 i hi2
    · constructor
      · intro hceq
        exfalso
        simp only [CMPEOB] at hceq
        omega
      · rintro ⟨hle, -⟩
        omega
  · simp only [if_neg h1]
    by_cases h2 : r.lcOrg = EOB ∨ r.lcNew = EOB
    · simp only [if_pos h2]
      refine ⟨Or.inr (Or.inl trivial), ?_, ?_⟩
      · intro habs
        exfalso
        simp only [CMPEOB, EQLMIN] at habs
        omega
      · exact iff_of_true trivial ⟨by omega, h2⟩
    · simp only [if_neg h2]
      refine ⟨Or.inl trivial, ?_, ?_⟩
      · intro habs
        exfalso
        simp only [EQLMIN] at habs
        omega
      · refine iff_of_false ?_ ?_
        · simp [CMPEOB]
        · rintro ⟨-, hor⟩
          exact h2 hor

/-- Witness for C1: on files disagreeing everywhere with budget 0, `check`
returns 0; the witness instantiates the claim theorem there. -/
theorem C1_matchtable_check_witness :
    (check (fun _ => 65) (fun _ => 66) 0 0 0 0).1 = 0 ∨
    (check (fun _ => 65) (fun _ => 66) 0 0 0 0).1 = CMPEOB ∨
    ((EQLMIN : Int) + 1 ≤ (check (fun _ => 65) (fun _ => 66) 0 0 0 0).1 ∧
     (check (fun _ => 65) (fun _ => 66) 0 0 0 0).1 ≤ (EQLMAX : Int)) :=
  (C1_matchtable_check (fun _ => 65) (fun _ => 66) 0 0 0 0).1

/-- Claim C3: the rolling-hash update computes, for every previous hash `h`,
previous byte `p`, new byte `c` and equal-tail counter `e ∈ [0, SMPSZE]`,
first the state update `e := min(e+1, SMPSZE)` if `c == p` (else `e := 0`,
`p := c`), and then the new hash `h' = (h << 1) + c + e` (in the wrapping
unsigned `hkey` arithmetic). -/
theorem C3_hash_update (h : Nat) (p : Int) (c : Nat) (e : Nat)
    (he : e ≤ SMPSZE) :
    hash h p c e =
      if p = (c : Int) then
        ((h * 2 + c + min (e + 1) SMPSZE) % hkeyMod, p, min (e + 1) SMPSZE)
      else
        ((h * 2 + c + 0) % hkeyMod, (c : Int), 0) := by
  unfold hash
  by_cases hp : p = (c : Int)
  · have hm : (if e < SMPSZE then e + 1 else e) = min (e + 1) SMPSZE := by
      split_ifs <;> omega
    simp only [hp, if_true, ite_true, hm]
  · simp only [hp, if_false, ite_false]

/-- Witness for C3 at a concrete input. -/
theorem C3_hash_update_witness :
    hash 0 (-1) 7 0 =
      if (-1 : Int) = ((7 : Nat) : Int) then
        ((0 * 2 + 7 + min (0 + 1) SMPSZE) % hkeyMod, (-1 : Int),
          min (0 + 1) SMPSZE)
      else ((0 * 2 + 7 + 0) % hkeyMod, ((7 : Nat) : Int), 0) :=
  C3_hash_update 0 (-1) 7 0 (Nat.zero_le _)

/-- Claim C10: because the rolling-hash update caps the equal-tail counter at
`SMPSZE`, every `eq` value the differencing driver passes to the index's
`add` (any trajectory started from `e = 0`) satisfies
`eq ≤ SMPSZE ≤ 2·SMPSZE`, so the collision-counter decrement is always
`COLLISION_HIGH` (4) and the low-quality branch is unreachable. -/
theorem C10_add_always_high_quality (cs : List Nat) :
    (hashFold (0, EOF, 0) cs).2.2 ≤ SMPSZE ∧
    SMPSZE ≤ 2 * SMPSZE ∧
    colDec ((hashFold (0, EOF, 0) cs).2.2 : Int) = COLLISION_HIGH ∧
    COLLISION_HIGH = 4 := by
  have h1 := hashFold_eql_le cs (0, EOF, 0) (Nat.zero_le _)
  exact ⟨h1, by omega, colDec_high _ h1, rfl⟩

/-- Claim C4: in `JHashPos::add(h, pos, eq)` the collision counter is
decremented by 4 when `eq ≤ 2·SMPSZE` and by 1 otherwise; the pair
`(h, pos)` is stored into slot `h mod P` exactly when the decremented
counter reaches `≤ 0`, in which case the counter is reset to `colMax`
(otherwise the table is unchanged); every add ticks the load counter down,
and on wrap-around `colMax` and `rlb` grow by 4 and the load counter is
reset to `P`; `rlb` and `colMax` are non-decreasing across any sequence of
adds. -/
theorem C4_hashpos_add :
    (∀ (st : HpState) (h : Nat) (pos : Int) (eq : Int),
      ((st.colCnt - (if eq ≤ 2 * (SMPSZE : Int) then (4 : Int) else 1) ≤ 0 →
          (hpAdd st h pos eq).tblHsh (h % st.prime) = h ∧
          (hpAdd st h pos eq).tblPos (h % st.prime) = pos ∧
          (hpAdd st h pos eq).colCnt = (hpAdd st h pos eq).colMax) ∧
       (0 < st.colCnt - (if eq ≤ 2 * (SMPSZE : Int) then (4 : Int) else 1) →
          (hpAdd st h pos eq).tblHsh = st.tblHsh ∧
          (hpAdd st h pos eq).tblPos = st.tblPos ∧
          (hpAdd st h pos eq).colCnt =
            st.colCnt - (if eq ≤ 2 * (SMPSZE : Int) then (4 : Int) else 1))) ∧
      ((0 < st.lodCnt →
          (hpAdd st h pos eq).lodCnt = st.lodCnt - 1 ∧
          (hpAdd st h pos eq).colMax = st.colMax ∧
          (hpAdd st h pos eq).rlb = st.rlb) ∧
       (st.lodCnt ≤ 0 →
          (hpAdd st h pos eq).lodCnt = (st.prime : Int) ∧
          (hpAdd st h pos eq).colMax = st.colMax + 4 ∧
          (hpAdd st h pos eq).rlb = st.rlb + 4))) ∧
    (∀ (st : HpState) (ops : List (Nat × Int × Int)),
      st.rlb ≤ (hpAddFold st ops).rlb ∧
      st.colMax ≤ (hpAddFold st ops).colMax) := by
  constructor
  · intro st h pos eq
    have hdec : colDec eq = (if eq ≤ 2 * (SMPSZE : Int) then (4 : Int) else 1) := by
      unfold colDec COLLISION_HIGH COLLISION_LOW
      rw [mul_comm]
    unfold hpAdd COLLISION_THRESHOLD
    rw [hdec]
    by_cases h1 : st.lodCnt > 0 <;>
      simp only [h1, ite_true, ite_false] <;>
      split_ifs with h2 <;>
      refine ⟨⟨fun hst => ?_, fun hst => ?_⟩, ⟨fun hl => ?_, fun hl => ?_⟩⟩ <;>
      simp_all <;> omega
  · intro st ops
    exact ⟨(hpAddFold_mono ops st).2, (hpAddFold_mono ops st).1⟩

/-- Witness for C4 at a concrete input: the first add into a fresh 3-slot
table stores immediately (the counter 4 drops to 0). -/
theorem C4_hashpos_add_witness :
    (hpAdd (hpInit 3 (fun _ => 0) (fun _ => 0)) 5 7 0).tblPos (5 % 3) = 7 ∧
    (hpAdd (hpInit 3 (fun _ => 0) (fun _ => 0)) 5 7 0).lodCnt = 2 := by
  have h :=
    (C4_hashpos_add.1 (hpInit 3 (fun _ => 0) (fun _ => 0)) 5 7 0)
  exact ⟨(h.1.1 (by decide)).2.1, by
    have := h.2.1 (by decide)
    simpa [hpInit] using this.1⟩

/-- Claim C8 counterexample: `reset()` does not clear the table and `get`
does not consult the reset counters, so a key stored before the reset still
returns its stale position afterwards (here key 5, position 7, in a 3-slot
table). -/
theorem C8_reset_cex :
    hpGet (hpAdd (hpInit 3 (fun _ => 0) (fun _ => 0)) 5 7 0) 5 = some 7 ∧
    hpGet (hpReset (hpAdd (hpInit 3 (fun _ => 0) (fun _ => 0)) 5 7 0)) 5 =
      some 7 := by
  constructor <;> decide

/-- Claim C8 amended: `reset()` re-initialises only the counters and leaves
the table content untouched, so `get` behaves exactly as before the reset —
stale entries keep being returned until a new `add` overwrites their slot. -/
theorem C8_reset_amended (st : HpState) (h : Nat) :
    hpGet (hpReset st) h = hpGet st h := rfl

/-- Claim C2: the translation of an elected best match `(fndOrg, fndNew)` at
read positions `(posOrg, posNew)` with backtrack base `baseOrg` into
`(skipOrg, skipNew, ahd)` and return code 1, exactly as claimed for the four
cases. -/
theorem C2_search_offsets (posOrg posNew fndOrg fndNew baseOrg : Int) :
    (fndOrg ≥ posOrg → fndOrg - posOrg ≥ fndNew - posNew →
       searchOffsets posOrg posNew fndOrg fndNew baseOrg =
         ((fndOrg - posOrg) - (fndNew - posNew), 0, fndNew - posNew, 1)) ∧
    (fndOrg ≥ posOrg → fndOrg - posOrg < fndNew - posNew →
       searchOffsets posOrg posNew fndOrg fndNew baseOrg =
         (0, (fndNew - posNew) - (fndOrg - posOrg), fndOrg - posOrg, 1)) ∧
    (fndOrg < posOrg →
       (posOrg - fndOrg + (fndNew - posNew) ≤ posOrg - baseOrg →
          searchOffsets posOrg posNew fndOrg fndNew baseOrg =
            (-(posOrg - fndOrg + (fndNew - posNew)), 0, fndNew - posNew, 1)) ∧
       (posOrg - baseOrg < posOrg - fndOrg + (fndNew - posNew) →
          searchOffsets posOrg posNew fndOrg fndNew baseOrg =
            (baseOrg - posOrg,
             (posOrg - fndOrg + (fndNew - posNew)) - (posOrg - baseOrg),
             (fndNew - posNew) -
               ((posOrg - fndOrg + (fndNew - posNew)) - (posOrg - baseOrg)),
             1))) := by
  refine ⟨fun h1 h2 => ?_, fun h1 h2 => ?_, fun h1 => ⟨fun h2 => ?_, fun h2 => ?_⟩⟩ <;>
    simp only [searchOffsets] <;> split_ifs <;>
    simp only [Prod.mk.injEq, and_true, true_and] <;> omega

/-- Witness for C2 at a concrete input. -/
theorem C2_search_offsets_witness :
    searchOffsets 0 0 5 2 0 = (3, 0, 2, 1) :=
  (C2_search_offsets 0 0 5 2 0).1 (by decide) (by decide)

/-- Claim C5: the mode dispatch of `JFileAhead::get_fromfile`: `Read` never
yields end-of-buffer; `SoftAhead` yields end-of-buffer whenever the
requested position exceeds `base + W - B` or lies before the first buffered
position; `HardAhead` yields end-of-buffer exactly when the stream is
sequential and serving the position would require seeking backwards (the
position lies before the first buffered byte). -/
theorem C5_get_fromfile_modes (st : FaState) (pos : Int) (s1 s2 re : Bool) :
    (get_fromfile st pos eAhead.Read s1 s2 re ≠ eBufDne.EndOfBuffer) ∧
    ((pos > st.posBse + st.bufSze - st.blkSze ∨ pos < st.posInp - st.bufUsd) →
       get_fromfile st pos eAhead.SoftAhead s1 s2 re = eBufDne.EndOfBuffer) ∧
    (get_fromfile st pos eAhead.HardAhead s1 s2 re = eBufDne.EndOfBuffer ↔
       (st.seq = true ∧ pos < st.posInp - st.bufUsd)) := by
  refine ⟨?_, ?_, ?_⟩ <;>
    simp only [get_fromfile] <;> split_ifs <;> simp_all <;> omega

/-- Witness for C5 at a concrete input: a soft read before the buffered
window reports end-of-buffer. -/
theorem C5_get_fromfile_modes_witness :
    get_fromfile ⟨100, 50, 64, 8, 0, false⟩ 10 eAhead.SoftAhead true true false =
      eBufDne.EndOfBuffer :=
  (C5_get_fromfile_modes ⟨100, 50, 64, 8, 0, false⟩ 10 true true false).2.1
    (Or.inr (by decide))

/-- Claim C7: the patch length decoder maps every encoded length per the
variable-width table — first byte `b ≤ 251` decodes to `b + 1`; `252 x`
decodes to `253 + x`; `253` is followed by a big-endian 16-bit value;
`254` by a big-endian 32-bit value; `255` by a big-endian 64-bit value. -/
theorem C7_ufGetInt (b x x1 x2 x3 x4 x5 x6 x7 x8 : Nat) (r : List Nat)
    (hb : b < 252) :
    ufGetInt (b :: r) = ((b : Int) + 1, r) ∧
    ufGetInt (252 :: x :: r) = (253 + (x : Int), r) ∧
    ufGetInt (253 :: x1 :: x2 :: r) = ((x1 : Int) * 256 + x2, r) ∧
    ufGetInt (254 :: x1 :: x2 :: x3 :: x4 :: r) =
      ((((x1 : Int) * 256 + x2) * 256 + x3) * 256 + x4, r) ∧
    ufGetInt (255 :: x1 :: x2 :: x3 :: x4 :: x5 :: x6 :: x7 :: x8 :: r) =
      ((((((((x1 : Int) * 256 + x2) * 256 + x3) * 256 + x4) * 256 + x5)
          * 256 + x6) * 256 + x7) * 256 + x8, r) := by
  have hbi : ((b : Int) < 252) := by exact_mod_cast hb
  refine ⟨?_, ?_, ?_, ?_, ?_⟩ <;>
    simp [ufGetInt, pget, hbi] <;> norm_num

/-- Witness for C7 at concrete inputs. -/
theorem C7_ufGetInt_witness :
    ufGetInt (10 :: [1, 2]) = (11, [1, 2]) :=
  ((C7_ufGetInt 10 0 0 0 0 0 0 0 0 0 [1, 2] (by decide)).1).trans (by norm_num)

/-- Claim C9 counterexample: when `jdiff` succeeds and no data bytes were
emitted (no differences), the internal result is `EXI_EQL = 2` but the final
switch exits with `EXI_OK = 0`, not 2. -/
theorem C9_exit_codes_cex :
    jdiffResultMap EXI_OK 0 = EXI_EQL ∧ exitSwitch EXI_EQL = 0 ∧
      (0 : Int) ≠ 2 := by
  refine ⟨by decide, by decide, by decide⟩

/-- Claim C9 amended: the program exits 0 for generic OK and also 0 when no
differences were found; it exits 1 when differences were found; the error
classes handled by the final switch map to distinct positive codes
(2 = arguments, 6 = seek, 7 = largefile, 8 = read, 9 = write, 10 = alloc,
20 = generic error); the open-file failures exit directly elsewhere in
`main` with codes 3, 4 and 5. -/
theorem C9_exit_codes_amended (d : Int) :
    exitSwitch (jdiffResultMap EXI_OK d) = (if 0 < d then 1 else 0) ∧
    exitSwitch EXI_OK = 0 ∧ exitSwitch EXI_DIF = 1 ∧ exitSwitch EXI_EQL = 0 ∧
    exitSwitch EXI_ARG = 2 ∧ exitSwitch EXI_SEK = 6 ∧ exitSwitch EXI_LRG = 7 ∧
    exitSwitch EXI_RED = 8 ∧ exitSwitch EXI_WRI = 9 ∧ exitSwitch EXI_MEM = 10 ∧
    exitSwitch EXI_ERR = 20 := by
  refine ⟨?_, by decide, by decide, by decide, by decide, by decide, by decide,
    by decide, by decide, by decide, by decide⟩
  by_cases hd : 0 < d
  · simp only [jdiffResultMap, if_pos hd, if_pos rfl, gt_iff_lt]
    decide
  · simp only [jdiffResultMap, gt_iff_lt, if_neg hd, if_pos rfl]
    decide

/-- Phase one of `nextold` preserves the total number of records. -/
theorem nextoldWalk_length (reuse : MRec → Bool) :
    ∀ (old nw : List MRec),
      (nextoldWalk reuse old nw).1.length + (nextoldWalk reuse old nw).2.length
        = old.length + nw.length := by
  intro old
  induction old with
  | nil => intro nw; simp [nextoldWalk]
  | cons r rest ih =>
      intro nw
      by_cases h : reuse r
      · simp [nextoldWalk, h]
      · have h2 := ih (nw ++ [r])
        simp only [List.length_append, List.length_cons, List.length_nil] at h2
        simp only [nextoldWalk, h, Bool.false_eq_true, if_false,
          List.length_cons]
        omega

/-- Phase two of `nextold` preserves the total number of records. -/
theorem nextoldPull_length :
    ∀ (l acc : List MRec),
      (nextoldPull l acc).1.length + (nextoldPull l acc).2.length =
        l.length + acc.length := by
  intro l
  induction l with
  | nil => intro acc; simp [nextoldPull]
  | cons r rest ih =>
      intro acc
      simp only [nextoldPull]
      split_ifs with h1 h2
      · have h3 := ih (acc ++ [{ r with iiCmp := 0 }])
        simp only [List.length_append, List.length_cons, List.length_nil] at h3 ⊢
        omega
      · simp only [List.length_append, List.length_cons, List.length_nil]
        omega
      · simp only [List.length_append, List.length_cons, List.length_nil]
        omega

/-- `nextold` preserves the total number of records on the two lists. -/
theorem nextold_length (bstId : Option Nat) (mzOld : Int)
    (old nw : List MRec) :
    (nextold bstId mzOld old nw).1.length +
      (nextold bstId mzOld old nw).2.length = old.length + nw.length := by
  simp only [nextold]
  have h1 := nextoldWalk_length (fun r => isOld2Reuse r bstId mzOld) old nw
  split_ifs with h
  · have h2 := nextoldPull_length
      (nextoldWalk (fun r => isOld2Reuse r bstId mzOld) old nw).2 []
    simp only [List.length_nil] at h2
    simp only [h.1, List.length_nil] at h1
    show (nextoldPull
        (nextoldWalk (fun r => isOld2Reuse r bstId mzOld) old nw).2 []).2.length +
      (nextoldPull
        (nextoldWalk (fun r => isOld2Reuse r bstId mzOld) old nw).2 []).1.length =
      old.length + nw.length
    omega
  · exact h1

/-- `insertEval` grows the new list by exactly one record. -/
theorem insertEval_length (ev : MRec → MRec × eMatchReturn) (r0 : MRec)
    (nw : List MRec) :
    (insertEval ev r0 nw).length = nw.length + 1 := by
  simp only [insertEval]
  split_ifs <;> simp

/-- Every `MtStep` preserves the accounting quantity. -/
theorem mtStep_count {ev : MRec → MRec × eMatchReturn} {a b : MtState}
    (h : MtStep ev a b) : mtCount b = mtCount a := by
  cases h with
  | cleanup azRedNew bst1 mzOld1 =>
      have h1 := nextold_length bst1 mzOld1
        ((a.new ++ a.old).map fun r =>
          if isOld2Skip r azRedNew then { r with iiCmp := CMPSKP }
          else (ev r).1) []
      simp only [List.length_map, List.length_append, List.length_nil] at h1
      simp only [mtCount]
      omega
  | addRefreshOldHead glide azFndNewAdd r rest hold =>
      have h1 := nextold_length a.bstId a.mzOld rest a.new
      simp only [mtCount, hold, List.length_cons, List.length_append,
        List.length_nil]
      omega
  | addRefreshInOld glide azFndNewAdd i =>
      simp [mtCount, List.length_modify]
  | addRefreshInNew glide azFndNewAdd i =>
      simp [mtCount, List.length_modify]
  | addAllocFree idNew o n hfre =>
      simp only [mtCount, insertEval_length]
      omega
  | addReuseOld o n r rest hfre hold =>
      have h1 := nextold_length a.bstId a.mzOld rest a.new
      simp only [mtCount, hold, insertEval_length, List.length_cons]
      omega
  | addFull hfre hold => rfl
  | getbestJoin bst1 mzOld1 =>
      simp only [mtCount, List.length_append, List.length_nil]
      omega

/-- Claim C6: at every stable point — after any sequence of complete `add`,
`cleanup` or `getbest` calls starting from a fresh table of `N` slots — the
number of records on the new list plus the number on the old list plus the
free-slot count equals the configured match-table size `N`. -/
theorem C6_matchtable_accounting (N : Nat) (ev : MRec → MRec × eMatchReturn)
    (s : MtState) (h : Relation.ReflTransGen (MtStep ev) (mtInit N) s) :
    mtCount s = N := by
  induction h with
  | refl => simp [mtInit, mtCount]
  | tail _ hstep ih => rw [mtStep_count hstep]; exact ih

/-- Witness for C6: one `add` allocating from the free pool of a fresh
13-slot table keeps the accounting quantity at 13. -/
theorem C6_matchtable_accounting_witness :
    mtCount { mtInit 13 with
      fre := (mtInit 13).fre - 1,
      new := insertEval (fun r => (r, eMatchReturn.Valid)) (initRec 0 3 1)
        (mtInit 13).new } = 13 :=
  C6_matchtable_accounting 13 (fun r => (r, eMatchReturn.Valid)) _
    (Relation.ReflTransGen.single
      (MtStep.addAllocFree (mtInit 13) 0 3 1 (by decide)))

end JojoDiff
